import Mathlib

set_option maxRecDepth 16000

/-!
Shallow embedding of `create-aiip.py` (interactive-image-protocol).

The program renders a fixed data set onto an RGB canvas and then splices one
custom `aiip` chunk into the PNG byte stream produced for that canvas.  The
byte-level embedding logic (`embed_aiip_chunk`, source lines 160-191) is
modelled over lists of natural numbers standing for bytes; the external
library calls it makes are modelled as follows:

* `zlib.crc32` is translated concretely (the standard reflected CRC-32 with
  polynomial 0xEDB88320, initial value 0xFFFFFFFF and final complement),
  since the checksum is part of the bit-exact chunk contract;
* `json.dumps` is translated concretely over an inductive value domain
  `PyJson` mirroring the values Python's default serializer accepts,
  including the non-finite floats it prints as bare tokens;
* `zlib.compress` / `zlib.decompress` and, where a claim treats the whole
  serialization abstractly, the serializer, are passed in as function
  parameters constrained only by their documented round-trip contract, so
  the theorems below are about the repository's own splicing logic and not
  about a reimplementation of DEFLATE.

Bytes are naturals; where a result depends on values being genuine bytes a
hypothesis `b < 256` is carried explicitly.
-/

/-- Big-endian 4-byte encoding of a 32-bit value, as produced by
Python's `struct.pack` with format `>I` (source lines 181). -/
def be32 (n : Nat) : List Nat :=
  [n / 2 ^ 24 % 256, n / 2 ^ 16 % 256, n / 2 ^ 8 % 256, n % 256]

/-- Big-endian 4-byte decoding, as performed by `struct.unpack` with
format `>I` on a 4-byte slice (source line 185).  On a list that does not
have exactly four elements the Python call would raise; callers below only
apply it to 4-byte slices, and the catch-all returns 0. -/
def rb32 : List Nat → Nat
  | [a, b, c, d] => ((a * 256 + b) * 256 + c) * 256 + d
  | _ => 0

/-- One modular-division step of the reflected CRC-32 used by `zlib.crc32`:
shift right one bit, folding in the polynomial 0xEDB88320 when the low bit
is set. -/
def crcStep (c : Nat) : Nat :=
  if c % 2 = 1 then c / 2 ^^^ 0xEDB88320 else c / 2

/-- Iterated CRC division steps. -/
def crcRounds : Nat → Nat → Nat
  | 0, c => c
  | n + 1, c => crcRounds n (crcStep c)

/-- Absorb one input byte into the CRC state: xor it into the low byte and
run eight division steps. -/
def crcByte (c b : Nat) : Nat := crcRounds 8 (c ^^^ b)

/-- Fold the CRC state over a byte list. -/
def crc32Aux : Nat → List Nat → Nat
  | c, [] => c
  | c, b :: bs => crc32Aux (crcByte c b) bs

/-- Model of `zlib.crc32` on a byte string: initial state 0xFFFFFFFF,
absorb every byte, complement at the end. -/
def crc32 (bs : List Nat) : Nat := crc32Aux 0xFFFFFFFF bs ^^^ 0xFFFFFFFF

/-- Chunk type tag of the injected chunk: the ASCII bytes of `aiip`
(source line 175). -/
def chunkTypeBytes : List Nat := [0x61, 0x69, 0x69, 0x70]

/-- Data field of the injected chunk: the compression-method tag byte 0x01
(DEFLATE) followed by the compressed payload (source line 174). -/
def mkChunkData (compressed : List Nat) : List Nat := 1 :: compressed

/-- Full injected chunk as assembled on source lines 174-181:
big-endian length of the data field, the type tag, the data field, and the
big-endian CRC of (type ++ data) masked to 32 bits exactly as the source
writes `zlib.crc32(...) & 0xffffffff`. -/
def mkChunk (compressed : List Nat) : List Nat :=
  be32 (mkChunkData compressed).length ++ chunkTypeBytes ++ mkChunkData compressed
    ++ be32 (crc32 (chunkTypeBytes ++ mkChunkData compressed) &&& 0xFFFFFFFF)

/-- Insertion offset computed on source lines 185-186: the 8-byte
signature, the header chunk's 4-byte length field, 4-byte type field, its
data (whose length is read big-endian from bytes 8..12) and 4-byte CRC. -/
def insertPos (pngBytes : List Nat) : Nat :=
  8 + 4 + 4 + rb32 ((pngBytes.drop 8).take 4) + 4

/-- Model of `embed_aiip_chunk` (source lines 160-191) over container
bytes.  The source receives a PIL image and encodes it first; the claims
and section 6 of the spec treat the operation as a pure function on the
already-encoded container bytes, which is what the logic from line 169 on
is.  `ser` stands for `json.dumps` followed by UTF-8 encoding and `comp`
for `zlib.compress`.  The two failure exits mirror the `struct` calls: a
data field of 2^32 bytes or more cannot be packed into the 4-byte length
field (line 181), and an input shorter than 12 bytes leaves fewer than
four bytes for `struct.unpack` at line 185. -/
def embed_aiip_chunk {M : Type} (ser : M → List Nat) (comp : List Nat → List Nat)
    (pngBytes : List Nat) (data : M) : Option (List Nat) :=
  if (mkChunkData (comp (ser data))).length < 2 ^ 32 then
    if 12 ≤ pngBytes.length then
      some (pngBytes.take (insertPos pngBytes) ++ mkChunk (comp (ser data))
              ++ pngBytes.drop (insertPos pngBytes))
    else none
  else none

/-- Modelled from the spec: the source contains no extraction code, and the
spec (sections 6 and 8) adds `extract` as the symmetric counterpart.  This
walks the chunk records after the 8-byte signature and returns the data
field of the first chunk whose type tag is `aiip`.  The fuel argument
bounds the walk; each step advances at least 12 bytes, so the callers'
fuel of length + 1 never runs out before the stream does. -/
def findChunk (bs : List Nat) : Nat → Nat → Option (List Nat)
  | _, 0 => none
  | pos, fuel + 1 =>
    if pos + 8 ≤ bs.length then
      if (bs.drop (pos + 4)).take 4 = chunkTypeBytes then
        some ((bs.drop (pos + 8)).take (rb32 ((bs.drop pos).take 4)))
      else findChunk bs (pos + 12 + rb32 ((bs.drop pos).take 4)) fuel
    else none

/-- Modelled from the spec: extraction per section 6 and claim C1 — locate
the private chunk, check and strip the method-tag byte (1 = DEFLATE,
section 4.2 step 3 says readers fail cleanly on an unknown tag),
decompress, deserialize.  `decomp` stands for `zlib.decompress` and
`deser` for the inverse of the serialization. -/
def extract {M : Type} (deser : List Nat → Option M)
    (decomp : List Nat → Option (List Nat)) (bs : List Nat) : Option M :=
  (findChunk bs 8 (bs.length + 1)).bind fun data =>
    match data with
    | m :: compressed => if m = 1 then (decomp compressed).bind deser else none
    | [] => none

/-- Modelled from the spec: the fixed eight-byte signature of the standard
container format (PNG).  Section 4.2 requires `embed` to validate it; the
source never inspects these bytes. -/
def pngSignatureBytes : List Nat := [137, 80, 78, 71, 13, 10, 26, 10]

/-- A minimal well-formed container for concrete witnesses: signature,
then a header chunk with length 0, type `IHDR` and a zero checksum. -/
def sampleContainer : List Nat :=
  pngSignatureBytes ++ be32 0 ++ [73, 72, 68, 82] ++ be32 0

theorem rb32_be32 {n : Nat} (h : n < 2 ^ 32) : rb32 (be32 n) = n := by
  simp only [be32, rb32]
  omega

theorem mkChunkData_length (c : List Nat) :
    (mkChunkData c).length = 1 + c.length := by
  simp [mkChunkData, Nat.add_comm]

theorem mkChunk_length (c : List Nat) : (mkChunk c).length = 13 + c.length := by
  simp [mkChunk, be32, chunkTypeBytes, mkChunkData]
  omega

theorem crcStep_lt {c : Nat} (h : c < 2 ^ 32) : crcStep c < 2 ^ 32 := by
  unfold crcStep
  split
  · exact Nat.xor_lt_two_pow (by omega) (by norm_num)
  · omega

theorem crcStep_inj {c₁ c₂ : Nat} (h₁ : c₁ < 2 ^ 32) (h₂ : c₂ < 2 ^ 32)
    (h : crcStep c₁ = crcStep c₂) : c₁ = c₂ := by
  unfold crcStep at h
  have hp : Nat.testBit 0xEDB88320 31 = true := by decide
  by_cases e₁ : c₁ % 2 = 1 <;> by_cases e₂ : c₂ % 2 = 1
  · rw [if_pos e₁, if_pos e₂] at h
    have := Nat.xor_left_injective h
    omega
  · rw [if_pos e₁, if_neg e₂] at h
    exfalso
    have hb := congrArg (fun x => Nat.testBit x 31) h
    simp only [Nat.testBit_xor, hp,
      Nat.testBit_lt_two_pow (x := c₁ / 2) (i := 31) (by omega),
      Nat.testBit_lt_two_pow (x := c₂ / 2) (i := 31) (by omega)] at hb
    exact absurd hb (by decide)
  · rw [if_neg e₁, if_pos e₂] at h
    exfalso
    have hb := congrArg (fun x => Nat.testBit x 31) h
    simp only [Nat.testBit_xor, hp,
      Nat.testBit_lt_two_pow (x := c₁ / 2) (i := 31) (by omega),
      Nat.testBit_lt_two_pow (x := c₂ / 2) (i := 31) (by omega)] at hb
    exact absurd hb (by decide)
  · rw [if_neg e₁, if_neg e₂] at h
    omega

theorem crcRounds_lt {c : Nat} (n : Nat) (h : c < 2 ^ 32) :
    crcRounds n c < 2 ^ 32 := by
  induction n generalizing c with
  | zero => exact h
  | succ n ih => exact ih (crcStep_lt h)

theorem crcRounds_inj {c₁ c₂ : Nat} (n : Nat) (h₁ : c₁ < 2 ^ 32)
    (h₂ : c₂ < 2 ^ 32) (h : crcRounds n c₁ = crcRounds n c₂) : c₁ = c₂ := by
  induction n generalizing c₁ c₂ with
  | zero => exact h
  | succ n ih =>
    exact crcStep_inj h₁ h₂ (ih (crcStep_lt h₁) (crcStep_lt h₂) h)

theorem crcByte_lt {c b : Nat} (hc : c < 2 ^ 32) (hb : b < 256) :
    crcByte c b < 2 ^ 32 :=
  crcRounds_lt 8 (Nat.xor_lt_two_pow hc (by omega))

theorem crcByte_inj {c₁ b₁ c₂ b₂ : Nat} (hc₁ : c₁ < 2 ^ 32) (hc₂ : c₂ < 2 ^ 32)
    (hb₁ : b₁ < 256) (hb₂ : b₂ < 256) (hne : c₁ ^^^ b₁ ≠ c₂ ^^^ b₂) :
    crcByte c₁ b₁ ≠ crcByte c₂ b₂ := by
  intro h
  exact hne (crcRounds_inj 8 (Nat.xor_lt_two_pow hc₁ (by omega))
    (Nat.xor_lt_two_pow hc₂ (by omega)) h)

theorem crc32Aux_lt {c : Nat} {bs : List Nat} (hc : c < 2 ^ 32)
    (hbs : ∀ b ∈ bs, b < 256) : crc32Aux c bs < 2 ^ 32 := by
  induction bs generalizing c with
  | nil => exact hc
  | cons b bs ih =>
    exact ih (crcByte_lt hc (hbs b (List.mem_cons_self b bs)))
      (fun x hx => hbs x (List.mem_cons_of_mem b hx))

theorem crc32Aux_ne {c₁ c₂ : Nat} {bs : List Nat} (h₁ : c₁ < 2 ^ 32)
    (h₂ : c₂ < 2 ^ 32) (hbs : ∀ b ∈ bs, b < 256) (hne : c₁ ≠ c₂) :
    crc32Aux c₁ bs ≠ crc32Aux c₂ bs := by
  induction bs generalizing c₁ c₂ with
  | nil => exact hne
  | cons b bs ih =>
    have hb : b < 256 := hbs b (List.mem_cons_self b bs)
    exact ih (crcByte_lt h₁ hb) (crcByte_lt h₂ hb)
      (fun x hx => hbs x (List.mem_cons_of_mem b hx))
      (crcByte_inj h₁ h₂ hb hb fun h => hne (Nat.xor_left_injective h))

theorem crc32Aux_cons (c x : Nat) (l : List Nat) :
    crc32Aux c (x :: l) = crc32Aux (crcByte c x) l := rfl

theorem crc32Aux_append (c : Nat) (xs ys : List Nat) :
    crc32Aux c (xs ++ ys) = crc32Aux (crc32Aux c xs) ys := by
  induction xs generalizing c with
  | nil => rfl
  | cons x xs ih => rw [List.cons_append, crc32Aux_cons, crc32Aux_cons, ih]

theorem crc32_lt {bs : List Nat} (hbs : ∀ b ∈ bs, b < 256) :
    crc32 bs < 2 ^ 32 :=
  Nat.xor_lt_two_pow (crc32Aux_lt (by norm_num) hbs) (by norm_num)

theorem crc32_ne_of_single_byte {pre suf : List Nat} {b₁ b₂ : Nat}
    (hpre : ∀ b ∈ pre, b < 256) (hsuf : ∀ b ∈ suf, b < 256)
    (hb₁ : b₁ < 256) (hb₂ : b₂ < 256) (hne : b₁ ≠ b₂) :
    crc32 (pre ++ b₁ :: suf) ≠ crc32 (pre ++ b₂ :: suf) := by
  unfold crc32
  intro h
  have h' := Nat.xor_left_injective h
  rw [crc32Aux_append, crc32Aux_append] at h'
  have hc₀lt : crc32Aux 0xFFFFFFFF pre < 2 ^ 32 :=
    crc32Aux_lt (by norm_num) hpre
  have hstep : crcByte (crc32Aux 0xFFFFFFFF pre) b₁
      ≠ crcByte (crc32Aux 0xFFFFFFFF pre) b₂ :=
    crcByte_inj hc₀lt hc₀lt hb₁ hb₂ fun hx => hne (Nat.xor_right_inj.mp hx)
  exact crc32Aux_ne (crcByte_lt hc₀lt hb₁) (crcByte_lt hc₀lt hb₂) hsuf hstep
    (by simpa [crc32Aux_cons] using h')

theorem splice_slice_eq (C ch : List Nat) {p i k : Nat} (hik : i + k ≤ p)
    (hp : p ≤ C.length) :
    ((C.take p ++ ch ++ C.drop p).drop i).take k = (C.drop i).take k := by
  have hlen : (C.take p).length = p := by
    rw [List.length_take]; omega
  rw [List.append_assoc, List.drop_append_of_le_length (by omega),
    List.take_append_of_le_length (by rw [List.length_drop, hlen]; omega),
    List.drop_take, List.take_take, Nat.min_eq_left (by omega)]

theorem splice_drop_insert (C ch : List Nat) {p : Nat} (hp : p ≤ C.length) :
    (C.take p ++ ch ++ C.drop p).drop p = ch ++ C.drop p := by
  rw [List.append_assoc, List.drop_left' (by rw [List.length_take]; omega)]

theorem embed_eq_some {M : Type} (ser : M → List Nat) (comp : List Nat → List Nat)
    (C : List Nat) (E : M) (out : List Nat) :
    embed_aiip_chunk ser comp C E = some out ↔
      (mkChunkData (comp (ser E))).length < 2 ^ 32 ∧ 12 ≤ C.length ∧
        out = C.take (insertPos C) ++ mkChunk (comp (ser E)) ++ C.drop (insertPos C) := by
  unfold embed_aiip_chunk
  split
  case isTrue h1 =>
    split
    case isTrue h2 =>
      simp only [Option.some.injEq]
      exact ⟨fun h => ⟨h1, h2, h.symm⟩, fun h => h.2.2.symm⟩
    case isFalse h2 =>
      exact ⟨fun h => Option.noConfusion h, fun h => absurd h.2.1 h2⟩
  case isFalse h1 =>
    exact ⟨fun h => Option.noConfusion h, fun h => absurd h.1 h1⟩

theorem insertPos_ge (C : List Nat) : 20 ≤ insertPos C := by
  unfold insertPos; omega

/-- Claim C2: for every container byte string and metadata envelope, a
successful embed call returns exactly the bytes before the insertion point
(signature + header-chunk length field, type field, data and checksum),
then the new chunk, then the remaining original bytes; removing the
injected chunk byte-for-byte reconstructs the original container. -/
theorem embed_nondestructive_splice {M : Type} (ser : M → List Nat)
    (comp : List Nat → List Nat) (C : List Nat) (E : M) (out : List Nat)
    (h : embed_aiip_chunk ser comp C E = some out) :
    out = C.take (insertPos C) ++ mkChunk (comp (ser E)) ++ C.drop (insertPos C)
      ∧ C.take (insertPos C) ++ C.drop (insertPos C) = C := by
  obtain ⟨-, -, rfl⟩ := (embed_eq_some ser comp C E out).mp h
  exact ⟨rfl, List.take_append_drop _ _⟩

theorem embed_nondestructive_splice_witness :
    embed_aiip_chunk id id sampleContainer [42]
        = some (sampleContainer.take (insertPos sampleContainer)
            ++ mkChunk [42] ++ sampleContainer.drop (insertPos sampleContainer))
      ∧ (sampleContainer.take (insertPos sampleContainer)
            ++ mkChunk [42] ++ sampleContainer.drop (insertPos sampleContainer)
          = sampleContainer.take (insertPos sampleContainer)
              ++ mkChunk [42] ++ sampleContainer.drop (insertPos sampleContainer)
        ∧ sampleContainer.take (insertPos sampleContainer)
            ++ sampleContainer.drop (insertPos sampleContainer) = sampleContainer) :=
  ⟨by decide, embed_nondestructive_splice id id sampleContainer [42] _ (by decide)⟩

/-- Claim C3: for every successful embed call the injected chunk's first
four bytes are the big-endian 32-bit value 1 + length of the compressed
payload, and that value equals the number of data bytes that lie between
the type field and the checksum field (total chunk length minus the three
4-byte fields). -/
theorem chunk_length_field {M : Type} (ser : M → List Nat)
    (comp : List Nat → List Nat) (C : List Nat) (E : M) (out : List Nat)
    (h : embed_aiip_chunk ser comp C E = some out) :
    (mkChunk (comp (ser E))).take 4 = be32 (1 + (comp (ser E)).length)
      ∧ rb32 ((mkChunk (comp (ser E))).take 4)
          = (mkChunk (comp (ser E))).length - 12 := by
  obtain ⟨hlt, -, -⟩ := (embed_eq_some ser comp C E out).mp h
  rw [mkChunkData_length] at hlt
  have h1 : (mkChunk (comp (ser E))).take 4 = be32 (1 + (comp (ser E)).length) := by
    simp [mkChunk, mkChunkData_length, be32]
  refine ⟨h1, ?_⟩
  rw [h1, rb32_be32 hlt, mkChunk_length]
  omega

theorem chunk_length_field_witness :
    embed_aiip_chunk id id sampleContainer [42]
        = some (sampleContainer.take 20 ++ mkChunk [42] ++ sampleContainer.drop 20)
      ∧ ((mkChunk [42]).take 4 = be32 2
          ∧ rb32 ((mkChunk [42]).take 4) = (mkChunk [42]).length - 12) :=
  ⟨by decide, chunk_length_field id id sampleContainer [42]
    (sampleContainer.take 20 ++ mkChunk [42] ++ sampleContainer.drop 20)
    (by decide)⟩

/-- Claim C5: every successful embed call returns a container whose length
is the original length + 8 (length and type fields) + 1 (method tag) +
compressed-payload length + 4 (checksum), and whose first 8 bytes are the
original first 8 bytes. -/
theorem embed_size_and_signature {M : Type} (ser : M → List Nat)
    (comp : List Nat → List Nat) (C : List Nat) (E : M) (out : List Nat)
    (h : embed_aiip_chunk ser comp C E = some out) :
    out.length = C.length + 8 + 1 + (comp (ser E)).length + 4
      ∧ out.take 8 = C.take 8 := by
  obtain ⟨hlt, h12, rfl⟩ := (embed_eq_some ser comp C E out).mp h
  have hp := insertPos_ge C
  constructor
  · simp only [List.length_append, List.length_take, List.length_drop,
      mkChunk_length]
    omega
  · rw [List.append_assoc,
      List.take_append_of_le_length (by rw [List.length_take]; omega),
      List.take_take, Nat.min_eq_left (by omega)]

theorem embed_size_and_signature_witness :
    embed_aiip_chunk id id sampleContainer [42]
        = some (sampleContainer.take 20 ++ mkChunk [42] ++ sampleContainer.drop 20)
      ∧ ((sampleContainer.take 20 ++ mkChunk [42] ++ sampleContainer.drop 20).length
            = sampleContainer.length + 8 + 1 + 1 + 4
          ∧ (sampleContainer.take 20 ++ mkChunk [42] ++ sampleContainer.drop 20).take 8
            = sampleContainer.take 8) :=
  ⟨by decide, embed_size_and_signature id id sampleContainer [42] _ (by decide)⟩

/-- Claim C10: for every embed call the injected chunk's type field is
exactly the ASCII bytes of `aiip`, all four bytes lowercase letters (in
particular the first two, which carry the ancillary and private casing
bits), and the first byte of the chunk's data field is the method tag
0x01 standing for DEFLATE compression. -/
theorem chunk_type_and_method_tag (compressed : List Nat) :
    ((mkChunk compressed).drop 4).take 4 = [0x61, 0x69, 0x69, 0x70]
      ∧ (∀ b ∈ chunkTypeBytes, 0x61 ≤ b ∧ b ≤ 0x7A)
      ∧ ((mkChunk compressed).drop 8).take 1 = [1] := by
  refine ⟨?_, by decide, ?_⟩ <;> simp [mkChunk, be32, chunkTypeBytes, mkChunkData]

/-- Claim C6, counterexample: a 20-byte input of zeros does not begin with
the container signature, yet the embed operation succeeds rather than
failing with MalformedContainer — the source never inspects the signature
bytes. -/
theorem embed_accepts_invalid_signature :
    (embed_aiip_chunk id id (List.replicate 20 0) [42]).isSome = true
      ∧ (List.replicate 20 0).take 8 ≠ pngSignatureBytes := by
  exact ⟨by decide, by decide⟩

/-- Claim C6, amended: the embed operation performs no signature
validation at all; it fails exactly when the input is too short for the
header length field to be read (fewer than 12 bytes) or the chunk data
field cannot be packed into the 4-byte length field, and succeeds
otherwise regardless of the leading bytes. -/
theorem embed_succeeds_without_signature_check {M : Type} (ser : M → List Nat)
    (comp : List Nat → List Nat) (C : List Nat) (E : M) :
    (embed_aiip_chunk ser comp C E).isSome = true ↔
      12 ≤ C.length ∧ (mkChunkData (comp (ser E))).length < 2 ^ 32 := by
  unfold embed_aiip_chunk
  split
  case isTrue h1 =>
    split
    case isTrue h2 => exact iff_of_true (by simp) ⟨h2, h1⟩
    case isFalse h2 => exact iff_of_false (by simp) (fun h => h2 h.1)
  case isFalse h1 => exact iff_of_false (by simp) (fun h => h1 h.2)

theorem be32_length (n : Nat) : (be32 n).length = 4 := by simp [be32]

theorem findChunk_step (bs : List Nat) (pos fuel : Nat) :
    findChunk bs pos (fuel + 1) =
      if pos + 8 ≤ bs.length then
        if (bs.drop (pos + 4)).take 4 = chunkTypeBytes then
          some ((bs.drop (pos + 8)).take (rb32 ((bs.drop pos).take 4)))
        else findChunk bs (pos + 12 + rb32 ((bs.drop pos).take 4)) fuel
      else none := rfl

theorem mkChunk_append_take4 (c rest : List Nat) :
    (mkChunk c ++ rest).take 4 = be32 (mkChunkData c).length := by
  rw [mkChunk]
  simp only [List.append_assoc]
  rw [List.take_left' (be32_length _)]

theorem mkChunk_append_drop4 (c rest : List Nat) :
    (mkChunk c ++ rest).drop 4
      = chunkTypeBytes ++ (mkChunkData c
          ++ (be32 (crc32 (chunkTypeBytes ++ mkChunkData c) &&& 0xFFFFFFFF)
              ++ rest)) := by
  rw [mkChunk]
  simp only [List.append_assoc]
  rw [List.drop_left' (be32_length _)]

theorem mkChunk_append_drop8 (c rest : List Nat) :
    (mkChunk c ++ rest).drop 8
      = mkChunkData c
          ++ (be32 (crc32 (chunkTypeBytes ++ mkChunkData c) &&& 0xFFFFFFFF)
              ++ rest) := by
  rw [show (8 : Nat) = 4 + 4 from rfl, ← List.drop_drop, mkChunk_append_drop4,
    List.drop_left' (show chunkTypeBytes.length = 4 from rfl)]

/-- Claim C1: for every metadata envelope (serialized and compressed by
functions satisfying their round-trip contracts, as the json and zlib
libraries do) and every valid container — one whose header chunk is
complete and is not itself an `aiip` chunk — extracting from the result of
a successful embed locates the injected chunk, strips the method tag,
decompresses, deserializes, and returns the original envelope.  The
extractor here is spec-modelled: the source has no reader. -/
theorem extract_embed_roundtrip {M : Type} (ser : M → List Nat)
    (deser : List Nat → Option M) (comp : List Nat → List Nat)
    (decomp : List Nat → Option (List Nat)) (C : List Nat) (E : M)
    (hC : insertPos C ≤ C.length)
    (hT : (C.drop 12).take 4 ≠ chunkTypeBytes)
    (hlen : (mkChunkData (comp (ser E))).length < 2 ^ 32)
    (hdecomp : decomp (comp (ser E)) = some (ser E))
    (hdeser : deser (ser E) = some E) :
    (embed_aiip_chunk ser comp C E).bind (extract deser decomp) = some E := by
  have hp20 := insertPos_ge C
  have h12 : 12 ≤ C.length := by omega
  set n := comp (ser E) with hn
  set p := insertPos C with hpdef
  have hout : embed_aiip_chunk ser comp C E
      = some (C.take p ++ mkChunk n ++ C.drop p) :=
    (embed_eq_some ser comp C E _).mpr ⟨hlen, h12, rfl⟩
  rw [hout, Option.some_bind]
  set out := C.take p ++ mkChunk n ++ C.drop p with houtdef
  have hlenout : out.length = C.length + (13 + n.length) := by
    rw [houtdef]
    simp only [List.length_append, List.length_take, List.length_drop,
      mkChunk_length]
    omega
  have hslice8 : (out.drop 8).take 4 = (C.drop 8).take 4 :=
    splice_slice_eq C (mkChunk n) (by omega) hC
  have hslice12 : (out.drop 12).take 4 = (C.drop 12).take 4 :=
    splice_slice_eq C (mkChunk n) (by omega) hC
  have hdropp : out.drop p = mkChunk n ++ C.drop p :=
    splice_drop_insert C (mkChunk n) hC
  have hposeq : 20 + rb32 ((C.drop 8).take 4) = p := by
    rw [hpdef]; unfold insertPos; omega
  have hfind : findChunk out 8 (out.length + 1) = some (mkChunkData n) := by
    rw [findChunk_step]
    simp only [Nat.reduceAdd]
    rw [if_pos (by omega), if_neg (by rw [hslice12]; exact hT), hslice8, hposeq]
    obtain ⟨f, hf⟩ : ∃ f, out.length = f + 1 := ⟨out.length - 1, by omega⟩
    rw [hf, findChunk_step, if_pos (show p + 8 ≤ out.length by omega)]
    rw [← List.drop_drop, hdropp, mkChunk_append_drop4,
      if_pos (List.take_left' (show chunkTypeBytes.length = 4 from rfl)),
      ← List.drop_drop, hdropp, mkChunk_append_drop8, mkChunk_append_take4,
      rb32_be32 hlen, List.take_left' rfl]
  simp [extract, hfind, mkChunkData, hdecomp, hdeser]

theorem extract_embed_roundtrip_witness :
    (insertPos sampleContainer ≤ sampleContainer.length
        ∧ (sampleContainer.drop 12).take 4 ≠ chunkTypeBytes
        ∧ (mkChunkData [42]).length < 2 ^ 32)
      ∧ (embed_aiip_chunk id id sampleContainer [42]).bind (extract some some)
          = some [42] :=
  ⟨⟨by decide, by decide, by decide⟩,
    extract_embed_roundtrip id some id some sampleContainer [42]
      (by decide) (by decide) (by decide) rfl rfl⟩

theorem mkChunk_drop_checksum (c : List Nat) :
    (mkChunk c).drop (9 + c.length)
      = be32 (crc32 (chunkTypeBytes ++ mkChunkData c) &&& 0xFFFFFFFF) := by
  rw [show 9 + c.length = 8 + (1 + c.length) from by omega, ← List.drop_drop,
    ← List.append_nil (mkChunk c), mkChunk_append_drop8,
    List.drop_left' (by rw [mkChunkData_length]), List.append_nil]

/-- Claim C4: for every embed payload of genuine bytes, the final four
bytes of the injected chunk are the big-endian standard 32-bit CRC over
the type bytes, the method tag and the compressed payload; and changing
any single byte of the chunk's data field to a different byte value makes
an independent recomputation of that CRC disagree with the stored
checksum field. -/
theorem chunk_checksum_valid (compressed : List Nat)
    (hc : ∀ b ∈ compressed, b < 256) :
    (mkChunk compressed).drop (9 + compressed.length)
        = be32 (crc32 (chunkTypeBytes ++ mkChunkData compressed))
      ∧ ∀ i b', i < (mkChunkData compressed).length → b' < 256
          → b' ≠ (mkChunkData compressed).getD i 0
          → be32 (crc32 (chunkTypeBytes ++ (mkChunkData compressed).set i b'))
              ≠ (mkChunk compressed).drop (9 + compressed.length) := by
  have hdata : ∀ b ∈ mkChunkData compressed, b < 256 := by
    intro b hb
    rcases List.mem_cons.mp hb with rfl | h
    · omega
    · exact hc b h
  have htype : ∀ b ∈ chunkTypeBytes, b < 256 := by
    intro b hb
    simp only [chunkTypeBytes, List.mem_cons, List.not_mem_nil, or_false] at hb
    rcases hb with rfl | rfl | rfl | rfl <;> omega
  have hall : ∀ b ∈ chunkTypeBytes ++ mkChunkData compressed, b < 256 := by
    intro b hb
    rcases List.mem_append.mp hb with h | h
    · exact htype b h
    · exact hdata b h
  have hmask : crc32 (chunkTypeBytes ++ mkChunkData compressed) &&& 0xFFFFFFFF
      = crc32 (chunkTypeBytes ++ mkChunkData compressed) := by
    rw [show (0xFFFFFFFF : Nat) = 2 ^ 32 - 1 from by norm_num]
    exact Nat.and_pow_two_sub_one_of_lt_two_pow (crc32_lt hall)
  have part1 : (mkChunk compressed).drop (9 + compressed.length)
      = be32 (crc32 (chunkTypeBytes ++ mkChunkData compressed)) := by
    rw [mkChunk_drop_checksum, hmask]
  refine ⟨part1, ?_⟩
  intro i b' hi hb' hbne heq
  rw [part1] at heq
  have hd : (mkChunkData compressed).set i b'
      = (mkChunkData compressed).take i
          ++ b' :: (mkChunkData compressed).drop (i + 1) := by
    rw [List.set_eq_take_append_cons_drop, if_pos hi]
  have horig : mkChunkData compressed
      = (mkChunkData compressed).take i
          ++ (mkChunkData compressed).getD i 0
              :: (mkChunkData compressed).drop (i + 1) := by
    conv_lhs => rw [← List.take_append_drop i (mkChunkData compressed)]
    rw [List.getD_eq_getElem _ _ hi, List.getElem_cons_drop _ _ hi]
  have hpre : ∀ b ∈ chunkTypeBytes ++ (mkChunkData compressed).take i,
      b < 256 := by
    intro b hb
    rcases List.mem_append.mp hb with h | h
    · exact htype b h
    · exact hdata b (List.take_subset _ _ h)
  have hsuf : ∀ b ∈ (mkChunkData compressed).drop (i + 1), b < 256 :=
    fun b hb => hdata b (List.drop_subset _ _ hb)
  have hb2 : (mkChunkData compressed).getD i 0 < 256 := by
    rw [List.getD_eq_getElem _ _ hi]
    exact hdata _ (List.getElem_mem hi)
  have hsetall : ∀ b ∈ chunkTypeBytes ++ (mkChunkData compressed).set i b',
      b < 256 := by
    intro b hb
    rcases List.mem_append.mp hb with h | h
    · exact htype b h
    · rw [hd] at h
      rcases List.mem_append.mp h with h | h
      · exact hdata b (List.take_subset _ _ h)
      · rcases List.mem_cons.mp h with rfl | h
        · exact hb'
        · exact hsuf b h
  have hcrceq : crc32 (chunkTypeBytes ++ (mkChunkData compressed).set i b')
      = crc32 (chunkTypeBytes ++ mkChunkData compressed) := by
    have h2 := congrArg rb32 heq
    rwa [rb32_be32 (crc32_lt hsetall), rb32_be32 (crc32_lt hall)] at h2
  rw [hd] at hcrceq
  conv_rhs at hcrceq => rw [horig]
  rw [← List.append_assoc, ← List.append_assoc] at hcrceq
  exact crc32_ne_of_single_byte hpre hsuf hb' hb2 hbne hcrceq

theorem chunk_checksum_valid_witness :
    (∀ b ∈ [42], b < 256)
      ∧ ((mkChunk [42]).drop 10
            = be32 (crc32 (chunkTypeBytes ++ mkChunkData [42]))
          ∧ ∀ i b', i < (mkChunkData [42]).length → b' < 256
              → b' ≠ (mkChunkData [42]).getD i 0
              → be32 (crc32 (chunkTypeBytes ++ (mkChunkData [42]).set i b'))
                  ≠ (mkChunk [42]).drop 10) :=
  ⟨by decide, chunk_checksum_valid [42] (by decide)⟩

/-- Value domain of Python's default `json.dumps`: strings, integers,
floats (of which only the finite/non-finite distinction matters here, so
the three non-finite values are constructors), booleans, None, lists and
string-keyed dicts.  Cyclic references cannot be built in an inductive
type; they are the one `json.dumps` failure mode outside this domain. -/
inductive PyJson where
  | str (s : String)
  | int (n : Int)
  | nan
  | infinity
  | negInfinity
  | bool (b : Bool)
  | null
  | list (xs : List PyJson)
  | obj (kvs : List (String × PyJson))

/-- Hex digit character for values 0-15, lowercase as Python emits. -/
def hexDigit (n : Nat) : Char :=
  if n < 10 then Char.ofNat (48 + n) else Char.ofNat (87 + n)

/-- Escape one character the way Python's default `json.dumps` does in
the ASCII range (the `ensure_ascii` escaping of code points above 0x7F is
not modelled; no claim depends on it). -/
def escapeChar (c : Char) : String :=
  if c = '"' then "\\\""
  else if c = '\\' then "\\\\"
  else if c = '\n' then "\\n"
  else if c = '\t' then "\\t"
  else if c = '\r' then "\\r"
  else if c.toNat < 32 then
    "\\u00" ++ String.mk [hexDigit (c.toNat / 16), hexDigit (c.toNat % 16)]
  else String.mk [c]

/-- Quoted, escaped JSON string literal. -/
def dumpString (s : String) : String :=
  "\"" ++ String.join (s.data.map escapeChar) ++ "\""

mutual

/-- Model of `json.dumps` with default options (source line 170): default
separators (comma-space and colon-space), and the non-finite floats
emitted as the bare tokens `NaN`, `Infinity`, `-Infinity` because the
default `allow_nan=True` serializes them instead of raising. -/
def dumps : PyJson → String
  | .str s => dumpString s
  | .int n => toString n
  | .nan => "NaN"
  | .infinity => "Infinity"
  | .negInfinity => "-Infinity"
  | .bool true => "true"
  | .bool false => "false"
  | .null => "null"
  | .list xs => "[" ++ dumpsList xs ++ "]"
  | .obj kvs => "\x7b" ++ dumpsObj kvs ++ "\x7d"

/-- Comma-space separated serialization of a list's elements. -/
def dumpsList : List PyJson → String
  | [] => ""
  | [x] => dumps x
  | x :: y :: xs => dumps x ++ ", " ++ dumpsList (y :: xs)

/-- Comma-space separated serialization of a dict's key-value pairs. -/
def dumpsObj : List (String × PyJson) → String
  | [] => ""
  | [(k, v)] => dumpString k ++ ": " ++ dumps v
  | (k, v) :: p :: kvs => dumpString k ++ ": " ++ dumps v ++ ", " ++ dumpsObj (p :: kvs)

end

/-- UTF-8 encoding of one code point. -/
def utf8Char (n : Nat) : List Nat :=
  if n < 0x80 then [n]
  else if n < 0x800 then [0xC0 + n / 64, 0x80 + n % 64]
  else if n < 0x10000 then [0xE0 + n / 4096, 0x80 + n / 64 % 64, 0x80 + n % 64]
  else [0xF0 + n / 262144, 0x80 + n / 4096 % 64, 0x80 + n / 64 % 64, 0x80 + n % 64]

/-- Byte list of a string's UTF-8 encoding, as `.encode('utf-8')` does on
source line 171. -/
def strBytes (s : String) : List Nat :=
  (s.data.map (fun c => utf8Char c.toNat)).flatten

/-- The serializer the source actually passes to the chunk builder:
`json.dumps(data).encode('utf-8')` (source lines 170-171). -/
def pySer (m : PyJson) : List Nat := strBytes (dumps m)

/-- Claim C7, counterexample: a metadata value containing the non-finite
number NaN does not abort embedding with a SerializationError — Python's
default `json.dumps` serializes it as the bare token `NaN` and the embed
operation succeeds on it. -/
theorem embed_accepts_nonfinite :
    dumps PyJson.nan = "NaN"
      ∧ (embed_aiip_chunk pySer id (List.replicate 20 0) PyJson.nan).isSome
          = true :=
  ⟨rfl, by decide⟩

/-- Claim C7, amended: serialization is total on the whole value domain
of the default serializer — non-finite numbers included, since they are
emitted as bare tokens rather than raising — so for every metadata value
the embed operation succeeds whenever the container is at least 12 bytes
and the payload fits the 32-bit length field; a SerializationError could
only arise from values outside this domain, such as cyclic references,
which an inductive value cannot form. -/
theorem embed_serializes_all_values (comp : List Nat → List Nat)
    (C : List Nat) (m : PyJson) (h12 : 12 ≤ C.length)
    (hlen : (mkChunkData (comp (pySer m))).length < 2 ^ 32) :
    (embed_aiip_chunk pySer comp C m).isSome = true := by
  unfold embed_aiip_chunk
  rw [if_pos hlen, if_pos h12]
  rfl

theorem embed_serializes_all_values_witness :
    (12 ≤ sampleContainer.length
        ∧ (mkChunkData (pySer (PyJson.list [PyJson.int 1, PyJson.nan]))).length
            < 2 ^ 32)
      ∧ (embed_aiip_chunk pySer id sampleContainer
            (PyJson.list [PyJson.int 1, PyJson.nan])).isSome = true :=
  ⟨⟨by decide, by decide⟩,
    embed_serializes_all_values id sampleContainer
      (PyJson.list [PyJson.int 1, PyJson.nan]) (by decide) (by decide)⟩

/-- Severity levels keying REGION_COLORS (source lines 28-32). -/
inductive Severity where
  | low
  | medium
  | high
deriving DecidableEq

/-- REGION_COLORS (source lines 28-32) as parsed RGB triples:
low `#2ecc71`, medium `#f1c40f`, high `#e74c3c`. -/
def REGION_COLORS : Severity → Nat × Nat × Nat
  | .low => (46, 204, 113)
  | .medium => (241, 196, 15)
  | .high => (231, 76, 60)

/-- BG_COLOR `#1a3a5c` (source line 26) as an RGB triple (26, 58, 92). -/
def BG_COLOR : Nat × Nat × Nat := (26, 58, 92)

/-- Blend of one foreground channel as computed on source lines 118-119:
`int(c * 0.3 + int(BG_COLOR[1:3], 16) * 0.7)`.  `BG_COLOR[1:3]` is the
hex pair of the background's RED channel (26), whichever output channel
is being produced, and `int(...)` truncates toward zero, which on these
non-negative values is the floor.  The double-precision products are
modelled by exact rationals; on the nine channel values the program
actually evaluates, the double results truncate to the same integers as
the exact rationals (checked value by value). -/
def blendChannel (c : Nat) : Int :=
  ⌊(c : ℚ) * (3 / 10) + (BG_COLOR.1 : ℚ) * (7 / 10)⌋

/-- Interior fill color per severity level (source lines 117-120). -/
def fill_color (s : Severity) : Int × Int × Int :=
  (blendChannel (REGION_COLORS s).1, blendChannel (REGION_COLORS s).2.1,
    blendChannel (REGION_COLORS s).2.2)

/-- Fill color as the words of claim C8 describe it: each channel blended
with the background's corresponding channel and rounded to the nearest
integer. -/
def claimedFill (s : Severity) : Int × Int × Int :=
  (⌊((REGION_COLORS s).1 : ℚ) * (3 / 10) + (BG_COLOR.1 : ℚ) * (7 / 10) + 1 / 2⌋,
   ⌊((REGION_COLORS s).2.1 : ℚ) * (3 / 10) + (BG_COLOR.2.1 : ℚ) * (7 / 10) + 1 / 2⌋,
   ⌊((REGION_COLORS s).2.2 : ℚ) * (3 / 10) + (BG_COLOR.2.2 : ℚ) * (7 / 10) + 1 / 2⌋)

/-- Claim C8, counterexample: for the low-severity color `#2ecc71` on
background `#1a3a5c` the drawn fill is (32, 79, 52) — each channel is
truncated after blending with the background's RED channel 26 — while the
claimed per-channel rounded blend is (32, 102, 98); the green channel
alone is 79 against a claimed 102. -/
theorem fill_color_differs_from_claim :
    fill_color Severity.low = (32, 79, 52)
      ∧ claimedFill Severity.low = (32, 102, 98)
      ∧ fill_color Severity.low ≠ claimedFill Severity.low := by
  have h1 : fill_color Severity.low = (32, 79, 52) := by
    simp only [fill_color, REGION_COLORS, blendChannel, BG_COLOR, Prod.ext_iff]
    norm_num
  have h2 : claimedFill Severity.low = (32, 102, 98) := by
    simp only [claimedFill, REGION_COLORS, BG_COLOR, Prod.ext_iff]
    norm_num
  exact ⟨h1, h2, by rw [h1, h2]; decide⟩

/-- Claim C8, amended: for every region drawn, each channel of the
interior fill equals the floor (Python `int` truncation) of the severity
color's channel times 0.3 plus 26 times 0.7, where 26 is the background's
red channel — reused by the source for all three output channels. -/
theorem fill_color_amended (s : Severity) :
    fill_color s
      = (Int.ofNat ((3 * (REGION_COLORS s).1 + 182) / 10),
         Int.ofNat ((3 * (REGION_COLORS s).2.1 + 182) / 10),
         Int.ofNat ((3 * (REGION_COLORS s).2.2 + 182) / 10)) := by
  cases s <;>
    simp only [fill_color, REGION_COLORS, blendChannel, BG_COLOR, Prod.ext_iff] <;>
    norm_num

/-- Canvas width in pixels (source line 22). -/
def WIDTH : Nat := 800

/-- Canvas height in pixels (source line 23). -/
def HEIGHT : Nat := 600

/-- A font handle: a truetype asset at a path and size, or the imaging
library's built-in default font. -/
inductive FontHandle where
  | truetype (path : String) (size : Nat)
  | builtin
deriving DecidableEq

/-- Font selection of source lines 92-99: try the preferred Helvetica
asset at sizes 24, 14 and 11; on any failure — modelled by the host
flag — the bare `except` falls back to the built-in default font for all
three roles, so no error can propagate to the caller and the function is
total. -/
def selectFonts (hostHasFont : Bool) : FontHandle × FontHandle × FontHandle :=
  if hostHasFont then
    (FontHandle.truetype "/System/Library/Fonts/Helvetica.ttc" 24,
     FontHandle.truetype "/System/Library/Fonts/Helvetica.ttc" 14,
     FontHandle.truetype "/System/Library/Fonts/Helvetica.ttc" 11)
  else (FontHandle.builtin, FontHandle.builtin, FontHandle.builtin)

/-- A country entry of the fixed DATA (source lines 35-81). -/
structure Country where
  name : String
  rate : String

/-- A region entry of the fixed DATA (source lines 35-81). -/
structure Region where
  name : String
  tariff : String
  level : Severity
  countries : List Country
  bounds : Nat × Nat × Nat × Nat

/-- The fixed DATA regions (source lines 35-81). -/
def DATA_regions : List Region :=
  [⟨"North America", "25%", Severity.medium,
      [⟨"Canada", "25%"⟩, ⟨"Mexico", "25%"⟩], (50, 100, 250, 250)⟩,
   ⟨"South America", "35%", Severity.high,
      [⟨"Brazil", "50%"⟩, ⟨"Argentina", "15%"⟩], (150, 280, 300, 450)⟩,
   ⟨"Europe", "15%", Severity.low,
      [⟨"UK", "10%"⟩, ⟨"EU", "20%"⟩, ⟨"Switzerland", "39%"⟩], (350, 80, 500, 220)⟩,
   ⟨"Asia", "30%", Severity.high,
      [⟨"China", "30%"⟩, ⟨"Japan", "15%"⟩, ⟨"India", "50%"⟩], (520, 100, 750, 280)⟩]

/-- Interior-fill pixel model: the canvas starts as the background color,
and each region's inner rectangle (bounds shrunk by 2, source line 120)
is painted with the region's fill color, later regions over earlier ones.
Text, outlines and the legend are cosmetic overlays that leave the buffer
dimensions unchanged and are not modelled pixel-exactly; no claim depends
on them. -/
def pixelAt (x y : Nat) : Int × Int × Int :=
  DATA_regions.foldl
    (fun acc r =>
      if r.bounds.1 + 2 ≤ x ∧ x ≤ r.bounds.2.2.1 - 2
          ∧ r.bounds.2.1 + 2 ≤ y ∧ y ≤ r.bounds.2.2.2 - 2 then
        fill_color r.level
      else acc)
    ((BG_COLOR.1 : Int), (BG_COLOR.2.1 : Int), (BG_COLOR.2.2 : Int))

/-- A rendered image: the selected fonts and the row-major pixel buffer. -/
structure RenderedImage where
  fonts : FontHandle × FontHandle × FontHandle
  pixels : List (Int × Int × Int)

/-- Model of `create_aiip_image` (source lines 84-157): select fonts with
silent fallback, then produce the WIDTH x HEIGHT pixel buffer. -/
def create_aiip_image (hostHasFont : Bool) : RenderedImage :=
  { fonts := selectFonts hostHasFont
  , pixels := (List.range (WIDTH * HEIGHT)).map
      (fun i => pixelAt (i % WIDTH) (i / WIDTH)) }

/-- Claim C9: for every host state — whether or not the preferred font
asset exists — rendering is a total function that yields a non-empty
pixel buffer of the full canvas size, and when the font is missing the
built-in default is selected for all three size roles instead of an error
reaching the caller. -/
theorem render_succeeds_any_host (hostHasFont : Bool) :
    (create_aiip_image hostHasFont).pixels.length = WIDTH * HEIGHT
      ∧ (create_aiip_image hostHasFont).pixels ≠ []
      ∧ (create_aiip_image false).fonts
          = (FontHandle.builtin, FontHandle.builtin, FontHandle.builtin) := by
  have hlen : (create_aiip_image hostHasFont).pixels.length = WIDTH * HEIGHT := by
    simp [create_aiip_image]
  refine ⟨hlen, ?_, rfl⟩
  intro h
  rw [h, List.length_nil] at hlen
  exact absurd hlen.symm (by norm_num [WIDTH, HEIGHT])
